import Mathlib

/-!
Verification of the survey_scoring repository (APHAB and IOI-HA scoring
scripts) against its natural-language specification.  The Python scripts
`aphab.py`, `aphab_per_style.py` and `ioi_ha.py` are shallowly embedded:
pandas columns become fields of row structures, `float` response values
become `Option ℚ` (with `none` playing the role of NaN), the scoring
dictionaries become association lists built exactly as the source builds
them, and `Series.map` becomes an `Option.bind` into an association-list
lookup (which, like pandas `map`, yields a missing value for an absent key
instead of raising).
-/

namespace Aphab

/-- A long-format APHAB response row, as produced by `pd.melt` in
`aphab.py`: a subject identifier, a question number, and the raw response
value (`none` models NaN after the `astype(float)` conversion). -/
structure Row where
  subject : Nat
  q_num : Nat
  value : Option ℚ
deriving DecidableEq

/-- Question numbers scored with the reversed key
(`data['q_num'].isin([1, 16, 19, 9, 11, 21])`). -/
def reversedQs : List Nat := [1, 16, 19, 9, 11, 21]

/-- The score list `scores = [99, 87, 75, 50, 25, 12, 1]` from `aphab.py`. -/
def scores : List ℚ := [99, 87, 75, 50, 25, 12, 1]

/-- Builds a scoring dictionary the way the source does with
`for idx, score in enumerate(scores, start=1)`: response code `i+1` maps to
the `i`-th element of the list. -/
def enumDict (s : List ℚ) : List (ℚ × ℚ) :=
  ((List.range s.length).zip s).map (fun p => (((p.1 + 1 : ℕ) : ℚ), p.2))

/-- The dictionary `not_reversed_score` of `aphab.py`. -/
def not_reversed_score : List (ℚ × ℚ) := enumDict scores

/-- The dictionary `reversed_score` of `aphab.py`, built from the reversed
score list (`scores.reverse()`). -/
def reversed_score : List (ℚ × ℚ) := enumDict scores.reverse

/-- Python dict lookup as used by `Series.map`: the value at the key, if
present. -/
def lookupD (d : List (ℚ × ℚ)) (v : ℚ) : Option ℚ :=
  (d.find? (fun p => p.1 == v)).map Prod.snd

/-- `Series.map(dict)`: NaN keys and keys absent from the dictionary both
produce NaN. -/
def mapLookup (d : List (ℚ × ℚ)) (v : Option ℚ) : Option ℚ :=
  v.bind (lookupD d)

/-- The converted score column built with `np.where(data['reversed']==True,
data['value'].map(reversed_score), data['value'].map(not_reversed_score))`. -/
def scoreRow (q : Nat) (v : Option ℚ) : Option ℚ :=
  if q ∈ reversedQs then mapLookup reversed_score v else mapLookup not_reversed_score v

/-- The EC subscale question list from `aphab.py`. -/
def EC : List Nat := [4, 10, 12, 14, 15, 23]

/-- The BN subscale question list from `aphab.py`. -/
def BN : List Nat := [1, 6, 7, 16, 19, 24]

/-- The RV subscale question list from `aphab.py`. -/
def RV : List Nat := [2, 5, 9, 11, 18, 21]

/-- The AV subscale question list from `aphab.py`. -/
def AV : List Nat := [3, 8, 13, 17, 20, 22]

/-- The subscale column, assigned by the `if/elif` chain over `EC`, `BN`,
`RV`, `AV`; `none` models the initial `0` placeholder that is left in place
when no branch fires. -/
def subscaleOf (q : Nat) : Option String :=
  if q ∈ EC then some "EC"
  else if q ∈ BN then some "BN"
  else if q ∈ RV then some "RV"
  else if q ∈ AV then some "AV"
  else none

/-- The scored value of a row (composition of the score column with a row). -/
def scoreOf (r : Row) : Option ℚ := scoreRow r.q_num r.value

/-- Order-preserving de-duplication with an accumulator of already seen
elements; models pandas `Series.unique()` (first occurrences, input order). -/
def uniqAux {α : Type} [DecidableEq α] (seen : List α) : List α → List α
  | [] => []
  | x :: xs => if x ∈ seen then uniqAux seen xs else x :: uniqAux (x :: seen) xs

/-- Order-preserving de-duplication, pandas `Series.unique()`. -/
def uniq {α : Type} [DecidableEq α] (l : List α) : List α := uniqAux [] l

/-- Membership of a row in the (subject, subscale) group, the boolean mask
`(data['subject']==subject) & (data['subscale']==subscale)`. -/
def inGroup (sub : Nat) (s : Option String) (r : Row) : Bool :=
  r.subject == sub && subscaleOf r.q_num == s

/-- The rows of one (subject, subscale) group. -/
def groupRows (rows : List Row) (sub : Nat) (s : Option String) : List Row :=
  rows.filter (inGroup sub s)

/-- The count `temp['value'].isnull().sum()` of the missing-data check: the
number of rows of the group whose RAW value is missing. -/
def rawMissingCount (rows : List Row) (sub : Nat) (s : Option String) : Nat :=
  ((groupRows rows sub s).filter (fun r => r.value == none)).length

/-- `data['subject'].unique()`. -/
def subjectsOf (rows : List Row) : List Nat := uniq (rows.map (·.subject))

/-- `single_sub_df['subscale'].unique()` for one subject. -/
def subscalesOfSub (rows : List Row) (sub : Nat) : List (Option String) :=
  uniq ((rows.filter (fun r => r.subject == sub)).map (fun r => subscaleOf r.q_num))

/-- The exclusion report `missing_data`: all (subject, subscale) pairs, in
iteration order, whose group has more than two missing raw values. -/
def missing_data (rows : List Row) : List (Nat × Option String) :=
  (subjectsOf rows).flatMap (fun sub =>
    (subscalesOfSub rows sub).filterMap (fun s =>
      if 2 < rawMissingCount rows sub s then some (sub, s) else none))

/-- The cleaning loop `for subject, subscale in missing_data: data = data[-bools]`:
each reported group is removed from the table in turn. -/
def cleanData (rows : List Row) : List Row :=
  (missing_data rows).foldl (fun d p => d.filter (fun r => !(inGroup p.1 p.2 r))) rows

/-- `np.mean` applied to a pandas Series of scores: the mean over the
non-missing entries, NaN (`none`) when there are none. -/
def meanOpt (l : List (Option ℚ)) : Option ℚ :=
  if (l.filterMap id).length = 0 then none
  else some ((l.filterMap id).sum / ((l.filterMap id).length : ℚ))

/-- The score column of one (subject, subscale) group. -/
def groupScores (rows : List Row) (sub : Nat) (s : Option String) : List (Option ℚ) :=
  (groupRows rows sub s).map scoreOf

/-- One entry of `subscale_data = data.groupby(['subject', 'subscale'])['score']
.apply(np.mean)`, computed on the cleaned table. -/
def subscaleMean (rows : List Row) (sub : Nat) (s : Option String) : Option ℚ :=
  meanOpt (groupScores (cleanData rows) sub s)

/-- The mask `data['subscale'].isin(['BN', 'EC', 'RV'])` of the global-score
computation. -/
def globalPred (r : Row) : Bool :=
  subscaleOf r.q_num == some "BN" || subscaleOf r.q_num == some "EC"
    || subscaleOf r.q_num == some "RV"

/-- One entry of `global_scores = data.loc[data['subscale'].isin(['BN','EC','RV'])]
.groupby(['subject'])['score'].apply(np.mean)`: the mean of the subject's
individual item scores over the BN, EC, RV rows of the cleaned table. -/
def globalScore (rows : List Row) (sub : Nat) : Option ℚ :=
  meanOpt (((cleanData rows).filter (fun r => r.subject == sub && globalPred r)).map scoreOf)

/-- Modelled from the spec (for comparison with `globalScore`): the global
score as the spec words it, "the mean of that subject's surviving
per-subscale means among non-excluded subscales" BN, EC, RV. -/
def specGlobalScore (rows : List Row) (sub : Nat) : Option ℚ :=
  meanOpt ([some "BN", some "EC", some "RV"].map (fun s => subscaleMean rows sub s))

end Aphab

namespace Aphab

/-- C5: the forward lookup maps 1..7 to 99, 87, 75, 50, 25, 12, 1 in order;
the reversed lookup at x agrees with the forward lookup at 8 - x on the
whole response scale; each lookup is injective on 1..7 and its image is the
score set, so the two are mutually reverse bijections between {1..7} and
{99, 87, 75, 50, 25, 12, 1}. -/
theorem C5_lookup_tables_mirror :
    (([1, 2, 3, 4, 5, 6, 7] : List ℕ).map (fun x => lookupD not_reversed_score (x : ℚ))
        = [some 99, some 87, some 75, some 50, some 25, some 12, some 1])
    ∧ (([1, 2, 3, 4, 5, 6, 7] : List ℕ).map (fun x => lookupD reversed_score (x : ℚ))
        = [some 1, some 12, some 25, some 50, some 75, some 87, some 99])
    ∧ (([1, 2, 3, 4, 5, 6, 7] : List ℕ).map (fun x => lookupD reversed_score (x : ℚ))
        = ([1, 2, 3, 4, 5, 6, 7] : List ℕ).map (fun x => lookupD not_reversed_score ((8 - x : ℕ) : ℚ)))
    ∧ (([1, 2, 3, 4, 5, 6, 7] : List ℕ).map (fun x => lookupD not_reversed_score (x : ℚ))).Nodup
    ∧ (([1, 2, 3, 4, 5, 6, 7] : List ℕ).map (fun x => lookupD reversed_score (x : ℚ)))
        = (([1, 2, 3, 4, 5, 6, 7] : List ℕ).map (fun x => lookupD not_reversed_score (x : ℚ))).reverse
    ∧ (([1, 2, 3, 4, 5, 6, 7] : List ℕ).map (fun x => lookupD not_reversed_score (x : ℚ)))
        = scores.map some := by
  decide

/-- C6: a missing raw value yields a missing scored value, unconditionally —
through the reversed branch, the non-reversed branch, and hence for every
question number; no substitute score is produced. -/
theorem C6_missing_propagates :
    ∀ q : Nat, scoreRow q none = none
      ∧ mapLookup reversed_score none = none
      ∧ mapLookup not_reversed_score none = none := by
  intro q
  refine ⟨?_, rfl, rfl⟩
  unfold scoreRow
  split <;> rfl

/-- C8: every question index 1..24 belongs to exactly one of the four
subscale lists EC, BN, RV, AV (the lists are pairwise disjoint and jointly
cover 1..24), so the subscale assigner maps every such question to a
subscale name. -/
theorem C8_subscales_partition :
    ∀ q ∈ Finset.Icc 1 24,
      ((if q ∈ EC then 1 else 0) + (if q ∈ BN then 1 else 0)
        + (if q ∈ RV then 1 else 0) + (if q ∈ AV then 1 else 0) = 1)
      ∧ (subscaleOf q).isSome = true := by
  decide

/-- Witness for C8 at a concrete question index. -/
theorem C8_subscales_partition_witness :
    ((if 5 ∈ EC then 1 else 0) + (if 5 ∈ BN then 1 else 0)
      + (if 5 ∈ RV then 1 else 0) + (if 5 ∈ AV then 1 else 0) = 1)
    ∧ (subscaleOf 5).isSome = true :=
  C8_subscales_partition 5 (by decide)

/-- The literal form of the forward dictionary. -/
theorem nrs_eq :
    not_reversed_score
      = [((1 : ℚ), 99), (2, 87), (3, 75), (4, 50), (5, 25), (6, 12), (7, 1)] := by
  decide

/-- The literal form of the reversed dictionary. -/
theorem rs_eq :
    reversed_score
      = [((1 : ℚ), 1), (2, 12), (3, 25), (4, 50), (5, 75), (6, 87), (7, 99)] := by
  decide

/-- Test rows for C3: subject 1's RV group with a present but out-of-range
response code 9 on question 2, valid responses elsewhere. -/
def c3rows : List Row :=
  [⟨1, 2, some 9⟩, ⟨1, 5, some 1⟩, ⟨1, 9, some 7⟩,
   ⟨1, 11, some 7⟩, ⟨1, 18, some 1⟩, ⟨1, 21, some 7⟩]

/-- Counterexample for C3: a present out-of-range response code 9 on the
1..7 scale is silently mapped to a missing score (exactly as a missing
response would be), and aggregation proceeds over the remaining rows without
any error — scoring does not fail with a LookupError. -/
theorem C3_counterexample :
    scoreRow 2 (some 9) = none
      ∧ subscaleMean c3rows 1 (some "RV") = some 99 := by
  constructor
  · decide
  · have h : groupScores (cleanData c3rows) 1 (some "RV")
        = [none, some 99, some 99, some 99, some 99, some 99] := by decide
    rw [subscaleMean, h, meanOpt]
    norm_num [List.filterMap_cons]

/-- C3 amended: for every long-form row whose raw response value is present
but not a valid key of the applicable score lookup (any value outside the
1..7 response scale), the scored value is silently the missing value — the
same result as for a missing response — and no error is raised; scoring
never fails for such rows. -/
theorem C3_amended_silent_default (q : ℕ) (v : ℚ)
    (hv : v ∉ ([1, 2, 3, 4, 5, 6, 7] : List ℚ)) :
    scoreRow q (some v) = none := by
  simp only [List.mem_cons, List.not_mem_nil, or_false, not_or] at hv
  obtain ⟨h1, h2, h3, h4, h5, h6, h7⟩ := hv
  have hfor : lookupD not_reversed_score v = none := by
    rw [lookupD, List.find?_eq_none.mpr, Option.map_none']
    intro p hp
    rw [nrs_eq] at hp
    fin_cases hp <;> simp [beq_iff_eq] <;> intro h <;>
      first
        | exact h1 h.symm | exact h2 h.symm | exact h3 h.symm | exact h4 h.symm
        | exact h5 h.symm | exact h6 h.symm | exact h7 h.symm
  have hrev : lookupD reversed_score v = none := by
    rw [lookupD, List.find?_eq_none.mpr, Option.map_none']
    intro p hp
    rw [rs_eq] at hp
    fin_cases hp <;> simp [beq_iff_eq] <;> intro h <;>
      first
        | exact h1 h.symm | exact h2 h.symm | exact h3 h.symm | exact h4 h.symm
        | exact h5 h.symm | exact h6 h.symm | exact h7 h.symm
  unfold scoreRow
  split
  · exact hrev
  · exact hfor

/-- Witness for C3's amended theorem at the concrete out-of-range code 9 on
question 4. -/
theorem C3_amended_witness : scoreRow 4 (some 9) = none :=
  C3_amended_silent_default 4 9 (by decide)

/-- The non-missing scored values of the rows of a table satisfying a
predicate, as one filterMap pass. -/
def vals (l : List Row) (p : Row → Bool) : List ℚ :=
  l.filterMap (fun r => if p r then scoreOf r else none)

/-- The filter-map-drop-NaN pipeline used by the aggregations equals the
one-pass `vals`. -/
theorem vals_eq (l : List Row) (p : Row → Bool) :
    ((l.filter p).map scoreOf).filterMap id = vals l p := by
  induction l with
  | nil => rfl
  | cons a l ih =>
    simp only [vals] at ih ⊢
    by_cases hp : p a
    · cases h : scoreOf a <;>
        simp [List.filter_cons_of_pos hp, List.filterMap_cons, hp, h, ih]
    · simp [List.filter_cons_of_neg hp, List.filterMap_cons, hp, ih]

/-- Splitting `vals` along a disjunction of mutually exclusive predicates
gives a permutation of the two separate passes. -/
theorem vals_or_perm (l : List Row) (p q : Row → Bool)
    (h : ∀ r, ¬(p r = true ∧ q r = true)) :
    List.Perm (vals l (fun r => p r || q r)) (vals l p ++ vals l q) := by
  induction l with
  | nil => exact List.Perm.refl _
  | cons a l ih =>
    rcases Bool.eq_false_or_eq_true (p a) with hp | hp <;>
      rcases Bool.eq_false_or_eq_true (q a) with hq | hq
    · exact absurd ⟨hp, hq⟩ (h a)
    · -- only p holds
      have e3 : vals (a :: l) q = vals l q := by
        simp [vals, List.filterMap_cons, hq]
      cases hs : scoreOf a with
      | none =>
        have e1 : vals (a :: l) (fun r => p r || q r) = vals l (fun r => p r || q r) := by
          simp [vals, List.filterMap_cons, hp, hq, hs]
        have e2 : vals (a :: l) p = vals l p := by
          simp [vals, List.filterMap_cons, hp, hs]
        rw [e1, e2, e3]; exact ih
      | some x =>
        have e1 : vals (a :: l) (fun r => p r || q r)
            = x :: vals l (fun r => p r || q r) := by
          simp [vals, List.filterMap_cons, hp, hq, hs]
        have e2 : vals (a :: l) p = x :: vals l p := by
          simp [vals, List.filterMap_cons, hp, hs]
        rw [e1, e2, e3, List.cons_append]
        exact List.Perm.cons x ih
    · -- only q holds
      have e2 : vals (a :: l) p = vals l p := by
        simp [vals, List.filterMap_cons, hp]
      cases hs : scoreOf a with
      | none =>
        have e1 : vals (a :: l) (fun r => p r || q r) = vals l (fun r => p r || q r) := by
          simp [vals, List.filterMap_cons, hp, hq, hs]
        have e3 : vals (a :: l) q = vals l q := by
          simp [vals, List.filterMap_cons, hq, hs]
        rw [e1, e2, e3]; exact ih
      | some x =>
        have e1 : vals (a :: l) (fun r => p r || q r)
            = x :: vals l (fun r => p r || q r) := by
          simp [vals, List.filterMap_cons, hp, hq, hs]
        have e3 : vals (a :: l) q = x :: vals l q := by
          simp [vals, List.filterMap_cons, hq, hs]
        rw [e1, e2, e3]
        exact List.Perm.trans (List.Perm.cons x ih) List.perm_middle.symm
    · -- neither predicate holds: nothing is added anywhere
      have e1 : vals (a :: l) (fun r => p r || q r) = vals l (fun r => p r || q r) := by
        simp [vals, List.filterMap_cons, hp, hq]
      have e2 : vals (a :: l) p = vals l p := by
        simp [vals, List.filterMap_cons, hp]
      have e3 : vals (a :: l) q = vals l q := by
        simp [vals, List.filterMap_cons, hq]
      rw [e1, e2, e3]; exact ih

/-- Evaluation of `meanOpt` when the number of non-missing entries is a
known positive count. -/
theorem meanOpt_of_length (l : List (Option ℚ)) (n : ℕ) (hn : 0 < n)
    (h : (l.filterMap id).length = n) :
    meanOpt l = some ((l.filterMap id).sum / (n : ℚ)) := by
  rw [meanOpt, if_neg (by rw [h]; exact hn.ne'), h]

/-- Evaluation of `meanOpt` on three present values. -/
theorem meanOpt_three (a b c : ℚ) :
    meanOpt [some a, some b, some c] = some ((a + b + c) / 3) := by
  have h : List.filterMap id [some a, some b, some c] = [a, b, c] := by
    simp [List.filterMap_cons]
  rw [meanOpt, h]
  norm_num
  ring

/-- The global-score row mask, rewritten as the disjunction of the three
group masks. -/
theorem globalPred_split (sub : Nat) :
    (fun r => r.subject == sub && globalPred r)
      = (fun r => inGroup sub (some "BN") r
          || (inGroup sub (some "EC") r || inGroup sub (some "RV") r)) := by
  funext r
  rw [globalPred, inGroup, inGroup, inGroup]
  cases r.subject == sub <;>
    cases subscaleOf r.q_num == some "BN" <;>
      cases subscaleOf r.q_num == some "EC" <;>
        cases subscaleOf r.q_num == some "RV" <;> rfl

/-- Two group masks for distinct subscales never both hold. -/
theorem inGroup_disjoint (sub : Nat) (s t : Option String) (hst : s ≠ t) (r : Row) :
    ¬(inGroup sub s r = true ∧ inGroup sub t r = true) := by
  rintro ⟨hs, ht⟩
  rw [inGroup, Bool.and_eq_true, beq_iff_eq, beq_iff_eq] at hs ht
  exact hst (hs.2.symm.trans ht.2)

/-- C1 amended: the global score written to the _GLOBAL output is the mean
of the subject's individual (non-missing) item scores over the surviving
BN, EC, RV rows; it equals the mean of the subject's three per-subscale
means exactly in the balanced case, i.e. whenever the surviving BN, EC and
RV groups contribute the same positive number of non-missing scores. -/
theorem C1_amended_global_mean (rows : List Row) (sub : Nat) (n : ℕ) (hn : 0 < n)
    (hBN : (vals (cleanData rows) (inGroup sub (some "BN"))).length = n)
    (hEC : (vals (cleanData rows) (inGroup sub (some "EC"))).length = n)
    (hRV : (vals (cleanData rows) (inGroup sub (some "RV"))).length = n) :
    globalScore rows sub = specGlobalScore rows sub := by
  have hnQ : ((n : ℚ)) ≠ 0 := Nat.cast_ne_zero.mpr hn.ne'
  set L := cleanData rows with hL
  -- decompose the global mask into the three disjoint group masks
  have hperm : List.Perm (vals L (fun r => r.subject == sub && globalPred r))
      ((vals L (inGroup sub (some "BN")))
        ++ (vals L (inGroup sub (some "EC")) ++ vals L (inGroup sub (some "RV")))) := by
    rw [globalPred_split]
    refine List.Perm.trans
      (vals_or_perm L _ _ (fun r => ?_)) (List.Perm.append_left _ (vals_or_perm L _ _
        (inGroup_disjoint sub (some "EC") (some "RV") (by simp))))
    rintro ⟨h1, h2⟩
    rw [Bool.or_eq_true] at h2
    rcases h2 with h2 | h2
    · exact inGroup_disjoint sub (some "BN") (some "EC") (by simp) r ⟨h1, h2⟩
    · exact inGroup_disjoint sub (some "BN") (some "RV") (by simp) r ⟨h1, h2⟩
  -- evaluate the code-side global mean
  have hglen : (vals L (fun r => r.subject == sub && globalPred r)).length = 3 * n := by
    rw [hperm.length_eq, List.length_append, List.length_append, hBN, hEC, hRV]
    ring
  have hgsum : (vals L (fun r => r.subject == sub && globalPred r)).sum
      = (vals L (inGroup sub (some "BN"))).sum
        + (vals L (inGroup sub (some "EC"))).sum
        + (vals L (inGroup sub (some "RV"))).sum := by
    rw [hperm.sum_eq, List.sum_append, List.sum_append]
    ring
  have hglobal : globalScore rows sub
      = some ((vals L (fun r => r.subject == sub && globalPred r)).sum / ((3 * n : ℕ) : ℚ)) := by
    rw [globalScore, ← hL]
    have := meanOpt_of_length
      (((L.filter (fun r => r.subject == sub && globalPred r)).map scoreOf))
      (3 * n) (by positivity) (by rw [vals_eq]; exact hglen)
    rw [this, vals_eq]
  -- evaluate the three subscale means
  have hmean : ∀ s : Option String, (vals L (inGroup sub s)).length = n →
      subscaleMean rows sub s = some ((vals L (inGroup sub s)).sum / (n : ℚ)) := by
    intro s hs
    rw [subscaleMean, groupScores, groupRows, ← hL]
    have := meanOpt_of_length ((L.filter (inGroup sub s)).map scoreOf) n hn
      (by rw [vals_eq]; exact hs)
    rw [this, vals_eq]
  -- evaluate the spec-side mean of means
  have hspec : specGlobalScore rows sub
      = some (((vals L (inGroup sub (some "BN"))).sum / (n : ℚ)
          + (vals L (inGroup sub (some "EC"))).sum / (n : ℚ)
          + (vals L (inGroup sub (some "RV"))).sum / (n : ℚ)) / 3) := by
    rw [specGlobalScore, List.map_cons, List.map_cons, List.map_cons, List.map_nil,
      hmean _ hBN, hmean _ hEC, hmean _ hRV, meanOpt_three]
  rw [hglobal, hgsum, hspec]
  refine congrArg some ?_
  rw [div_add_div_same, div_add_div_same, div_div]
  push_cast
  ring

/-- Test rows for C1's amended theorem: subject 1 answered all 24 questions
with the mid-scale response 4, so each group contributes six scores. -/
def c1full : List Row := (List.range' 1 24).map (fun q => ⟨1, q, some 4⟩)

/-- Witness for C1's amended theorem on complete balanced data. -/
theorem C1_amended_witness : globalScore c1full 1 = specGlobalScore c1full 1 :=
  C1_amended_global_mean c1full 1 6 (by decide) (by decide) (by decide) (by decide)

/-- Raw values of the C1 counterexample table: subject 1 misses questions 4
and 10 (both EC), answers the remaining EC questions with code 7 (score 1),
and everything else with the mid-scale code 4 (score 50). -/
def c1val (q : ℕ) : Option ℚ :=
  if q = 4 ∨ q = 10 then none else if q ∈ EC then some 7 else some 4

/-- The C1 counterexample table. -/
def c1rows : List Row := (List.range' 1 24).map (fun q => ⟨1, q, c1val q⟩)

/-- Counterexample for C1: with two missing EC responses (within tolerance)
the EC group survives with four scores while BN and RV keep six each, and
the global score the code writes — the mean of the sixteen individual item
scores, 151/4 — differs from the mean of the subject's three surviving
subscale means, 101/3. -/
theorem C1_counterexample :
    globalScore c1rows 1 = some (151 / 4)
      ∧ specGlobalScore c1rows 1 = some (101 / 3)
      ∧ globalScore c1rows 1 ≠ specGlobalScore c1rows 1 := by
  have hg : ((cleanData c1rows).filter (fun r => r.subject == 1 && globalPred r)).map scoreOf
      = [some 50, some 50, none, some 50, some 50, some 50, some 50, none, some 50,
         some 1, some 1, some 1, some 50, some 50, some 50, some 50, some 1, some 50] := by
    decide
  have hBN : groupScores (cleanData c1rows) 1 (some "BN")
      = [some 50, some 50, some 50, some 50, some 50, some 50] := by decide
  have hEC : groupScores (cleanData c1rows) 1 (some "EC")
      = [none, none, some 1, some 1, some 1, some 1] := by decide
  have hRV : groupScores (cleanData c1rows) 1 (some "RV")
      = [some 50, some 50, some 50, some 50, some 50, some 50] := by decide
  have h1 : globalScore c1rows 1 = some (151 / 4) := by
    rw [globalScore, hg, meanOpt]
    norm_num [List.filterMap_cons]
  have hmBN : subscaleMean c1rows 1 (some "BN") = some 50 := by
    rw [subscaleMean, hBN, meanOpt]; norm_num [List.filterMap_cons]
  have hmEC : subscaleMean c1rows 1 (some "EC") = some 1 := by
    rw [subscaleMean, hEC, meanOpt]; norm_num [List.filterMap_cons]
  have hmRV : subscaleMean c1rows 1 (some "RV") = some 50 := by
    rw [subscaleMean, hRV, meanOpt]; norm_num [List.filterMap_cons]
  have h2 : specGlobalScore c1rows 1 = some (101 / 3) := by
    rw [specGlobalScore, List.map_cons, List.map_cons, List.map_cons, List.map_nil,
      hmBN, hmEC, hmRV, meanOpt]
    norm_num [List.filterMap_cons]
  refine ⟨h1, h2, ?_⟩
  rw [h1, h2]
  intro h
  rw [Option.some_inj] at h
  norm_num at h

/-- Membership in `uniqAux`: the element occurs in the input and was not
already seen. -/
theorem mem_uniqAux {α : Type} [DecidableEq α] (l : List α) :
    ∀ (seen : List α) (x : α), x ∈ uniqAux seen l ↔ (x ∈ l ∧ x ∉ seen) := by
  induction l with
  | nil => intro seen x; simp [uniqAux]
  | cons a l ih =>
    intro seen x
    rw [uniqAux]
    by_cases ha : a ∈ seen
    · rw [if_pos ha, ih]
      constructor
      · rintro ⟨hx, hs⟩
        exact ⟨List.mem_cons_of_mem a hx, hs⟩
      · rintro ⟨hx, hs⟩
        rcases List.mem_cons.mp hx with rfl | hx'
        · exact absurd ha hs
        · exact ⟨hx', hs⟩
    · rw [if_neg ha]
      constructor
      · intro hx
        rcases List.mem_cons.mp hx with rfl | hx'
        · exact ⟨List.mem_cons_self _ _, ha⟩
        · rcases (ih _ _).mp hx' with ⟨h1, h2⟩
          exact ⟨List.mem_cons_of_mem a h1, fun hh => h2 (List.mem_cons_of_mem a hh)⟩
      · rintro ⟨hx, hs⟩
        rcases List.mem_cons.mp hx with rfl | hx'
        · exact List.mem_cons_self x _
        · by_cases hxa : x = a
          · subst hxa; exact List.mem_cons_self x _
          · refine List.mem_cons_of_mem a ((ih _ _).mpr ⟨hx', ?_⟩)
            intro hh
            rcases List.mem_cons.mp hh with h | h
            · exact hxa h
            · exact hs h

/-- Membership in `uniq` is membership in the input list. -/
theorem mem_uniq {α : Type} [DecidableEq α] (l : List α) (x : α) :
    x ∈ uniq l ↔ x ∈ l := by
  rw [uniq, mem_uniqAux]
  simp

/-- Folding group-removal filters equals one filter with the conjunction of
all the removal conditions. -/
theorem foldl_filter_groups (ps : List (Nat × Option String)) :
    ∀ l : List Row,
      ps.foldl (fun d p => d.filter (fun r => !(inGroup p.1 p.2 r))) l
        = l.filter (fun r => ps.all (fun p => !(inGroup p.1 p.2 r))) := by
  induction ps with
  | nil => intro l; simp
  | cons p ps ih =>
    intro l
    rw [List.foldl_cons, ih, List.filter_filter]
    congr 1
    funext r
    rw [List.all_cons, Bool.and_comm]

/-- The cleaned table as a single filter of the input table. -/
theorem cleanData_eq (rows : List Row) :
    cleanData rows
      = rows.filter (fun r => (missing_data rows).all (fun p => !(inGroup p.1 p.2 r))) := by
  rw [cleanData, foldl_filter_groups]

/-- Membership in the cleaned table: the row comes from the input and
belongs to no reported group. -/
theorem mem_cleanData (rows : List Row) (r : Row) :
    r ∈ cleanData rows
      ↔ r ∈ rows ∧ ∀ p ∈ missing_data rows, inGroup p.1 p.2 r = false := by
  rw [cleanData_eq, List.mem_filter, List.all_eq_true]
  simp [Bool.not_eq_true']

/-- Membership in the exclusion report: the subject occurs in the table, the
subscale occurs among that subject's rows, and the group has more than two
missing raw values. -/
theorem mem_missing_data (rows : List Row) (sub : Nat) (s : Option String) :
    (sub, s) ∈ missing_data rows
      ↔ sub ∈ subjectsOf rows ∧ s ∈ subscalesOfSub rows sub
          ∧ 2 < rawMissingCount rows sub s := by
  rw [missing_data, List.mem_flatMap]
  constructor
  · rintro ⟨b, hb, hmem⟩
    rw [List.mem_filterMap] at hmem
    obtain ⟨s', hs', heq⟩ := hmem
    by_cases hc : 2 < rawMissingCount rows b s'
    · rw [if_pos hc, Option.some_inj] at heq
      injection heq with h1 h2
      subst h1
      subst h2
      exact ⟨hb, hs', hc⟩
    · rw [if_neg hc] at heq
      exact absurd heq (by simp)
  · rintro ⟨h1, h2, h3⟩
    exact ⟨sub, h1, List.mem_filterMap.mpr ⟨s, h2, by rw [if_pos h3]⟩⟩

/-- A row of the table puts its subject into `subjectsOf` and its subscale
into that subject's `subscalesOfSub`. -/
theorem group_mem_of_row (rows : List Row) (r : Row) (hr : r ∈ rows) :
    r.subject ∈ subjectsOf rows
      ∧ subscaleOf r.q_num ∈ subscalesOfSub rows r.subject := by
  constructor
  · rw [subjectsOf, mem_uniq]
    exact List.mem_map_of_mem _ hr
  · rw [subscalesOfSub, mem_uniq]
    refine List.mem_map_of_mem _ ?_
    rw [List.mem_filter]
    exact ⟨hr, by simp⟩

/-- C4 amended: the missing-data filter counts the rows of a (subject,
subscale) group whose RAW value is missing (not the scored value, which can
also be missing for a present but out-of-range code).  With that reading,
the claim holds: if the raw-missing count exceeds 2 the whole group is
dropped from the cleaned table (so it contributes zero rows to the subscale
and global aggregations, its subscale mean is NaN) and the pair is recorded
in the exclusion report; if the count is at most 2 the pair is not recorded,
the group survives intact, and its subscale mean is the mean over its
non-missing scored values. -/
theorem C4_amended_missing_filter (rows : List Row) (sub : Nat) (s : Option String) :
    (2 < rawMissingCount rows sub s →
        (sub, s) ∈ missing_data rows
        ∧ (∀ r ∈ cleanData rows, inGroup sub s r = false)
        ∧ groupRows (cleanData rows) sub s = []
        ∧ subscaleMean rows sub s = none)
    ∧ (rawMissingCount rows sub s ≤ 2 →
        (sub, s) ∉ missing_data rows
        ∧ groupRows (cleanData rows) sub s = groupRows rows sub s
        ∧ subscaleMean rows sub s = meanOpt (groupScores rows sub s)) := by
  constructor
  · intro h
    -- the group is nonempty, so its subject and subscale occur in the table
    have hex : ∃ r ∈ rows, inGroup sub s r = true := by
      have hpos : 0 < ((groupRows rows sub s).filter (fun r => r.value == none)).length := by
        have := h; rw [rawMissingCount] at this; omega
      obtain ⟨r, hr⟩ := List.exists_mem_of_length_pos hpos
      have hr' : r ∈ groupRows rows sub s := (List.mem_filter.mp hr).1
      rw [groupRows, List.mem_filter] at hr'
      exact ⟨r, hr'.1, hr'.2⟩
    obtain ⟨r, hr, hg⟩ := hex
    have hsub : r.subject = sub ∧ subscaleOf r.q_num = s := by
      rw [inGroup, Bool.and_eq_true, beq_iff_eq, beq_iff_eq] at hg
      exact hg
    have hmem : (sub, s) ∈ missing_data rows := by
      rw [mem_missing_data]
      have h1 := (group_mem_of_row rows r hr).1
      have h2 := (group_mem_of_row rows r hr).2
      rw [hsub.1] at h1 h2
      rw [hsub.2] at h2
      exact ⟨h1, h2, h⟩
    have hall : ∀ r' ∈ cleanData rows, inGroup sub s r' = false := by
      intro r' hr'
      exact ((mem_cleanData rows r').mp hr').2 (sub, s) hmem
    have hnil : groupRows (cleanData rows) sub s = [] := by
      rw [groupRows, List.filter_eq_nil_iff]
      intro r' hr'
      rw [hall r' hr']
      exact Bool.false_ne_true
    refine ⟨hmem, hall, hnil, ?_⟩
    rw [subscaleMean, groupScores, hnil]
    rfl
  · intro h
    have hnot : (sub, s) ∉ missing_data rows := by
      rw [mem_missing_data]
      rintro ⟨-, -, hc⟩
      omega
    have hgrp : groupRows (cleanData rows) sub s = groupRows rows sub s := by
      rw [groupRows, groupRows, cleanData_eq, List.filter_filter]
      apply List.filter_congr
      intro r hr
      rcases Bool.eq_false_or_eq_true (inGroup sub s r) with hg | hg
      · rw [hg, Bool.true_and, List.all_eq_true]
        intro p hp
        rcases Bool.eq_false_or_eq_true (inGroup p.1 p.2 r) with hg' | hg'
        · exfalso
          rw [inGroup, Bool.and_eq_true, beq_iff_eq, beq_iff_eq] at hg hg'
          have hps : p = (sub, s) := by
            rw [Prod.ext_iff]
            exact ⟨hg'.1.symm.trans hg.1, hg'.2.symm.trans hg.2⟩
          rw [hps] at hp
          exact hnot hp
        · rw [hg']; rfl
      · rw [hg]; rfl
    exact ⟨hnot, hgrp, by rw [subscaleMean, groupScores, hgrp, ← groupScores]⟩

/-- Test rows for C4's counterexample: subject 1's RV group with three
present but out-of-range codes (so three missing SCORED values) and no
missing raw value. -/
def c4rows : List Row :=
  [⟨1, 2, some 9⟩, ⟨1, 5, some 9⟩, ⟨1, 18, some 9⟩,
   ⟨1, 9, some 7⟩, ⟨1, 11, some 7⟩, ⟨1, 21, some 7⟩]

/-- Counterexample for C4 as stated: this group has three rows with missing
SCORED values, yet it is neither dropped nor recorded in the exclusion
report — the filter counts missing RAW values (here zero) — and the group
still contributes rows and a subscale mean downstream. -/
theorem C4_counterexample :
    2 < ((groupRows c4rows 1 (some "RV")).filter (fun r => scoreOf r == none)).length
    ∧ rawMissingCount c4rows 1 (some "RV") = 0
    ∧ (1, some "RV") ∉ missing_data c4rows
    ∧ groupRows (cleanData c4rows) 1 (some "RV") = groupRows c4rows 1 (some "RV")
    ∧ subscaleMean c4rows 1 (some "RV") = some 99 := by
  refine ⟨by decide, by decide, by decide, by decide, ?_⟩
  have h : groupScores (cleanData c4rows) 1 (some "RV")
      = [none, none, none, some 99, some 99, some 99] := by decide
  rw [subscaleMean, h, meanOpt]
  norm_num [List.filterMap_cons]

/-- Test rows for C4's amended theorem, excluded branch: subject 1's RV
group with three missing raw values. -/
def c4missRows : List Row :=
  [⟨1, 2, none⟩, ⟨1, 5, none⟩, ⟨1, 18, none⟩,
   ⟨1, 9, some 7⟩, ⟨1, 11, some 7⟩, ⟨1, 21, some 7⟩]

/-- Witness for C4's amended theorem: the over-tolerance branch on
`c4missRows` and the within-tolerance branch on `c4rows`. -/
theorem C4_amended_witness :
    ((1, some "RV") ∈ missing_data c4missRows
        ∧ subscaleMean c4missRows 1 (some "RV") = none)
    ∧ ((1, some "RV") ∉ missing_data c4rows
        ∧ subscaleMean c4rows 1 (some "RV") = meanOpt (groupScores c4rows 1 (some "RV"))) := by
  have h1 := (C4_amended_missing_filter c4missRows 1 (some "RV")).1 (by decide)
  have h2 := (C4_amended_missing_filter c4rows 1 (some "RV")).2 (by decide)
  exact ⟨⟨h1.1, h1.2.2.2⟩, ⟨h2.1, h2.2.2⟩⟩

end Aphab

namespace IoiHa

/-- A wide IOI-HA row as read from the export: a subject identifier and the
responses to questions 1..8 (`none` models NaN after `astype(float)`). -/
structure WRow where
  subject : Nat
  resp : Nat → Option ℚ

/-- A long IOI-HA row after `pd.melt(data, id_vars=['subject', 'difficulty'],
value_vars=list(range(1,9)))`. -/
structure LRow where
  subject : Nat
  difficulty : String
  question : Nat
  score : Option ℚ

/-- The pandas elementwise comparison `data[8] > 2`: NaN compared with a
number is False. -/
def gtNaN (v : Option ℚ) (c : ℚ) : Bool :=
  match v with
  | some x => decide (c < x)
  | none => false

/-- The difficulty-tier assignment: `data.loc[bools, 'difficulty'] = 'mild-mod'`
and `data.loc[bools==False, 'difficulty'] = 'mod-severe'` with
`bools = data[8] > 2`. -/
def assignDifficulty (w : WRow) : String :=
  if gtNaN (w.resp 8) 2 then "mild-mod" else "mod-severe"

/-- The melt to long form: question-major order (all subjects for question
1, then question 2, ...), each long row carrying the subject's
already-computed difficulty tier. -/
def melt (ws : List WRow) : List LRow :=
  (List.range' 1 8).flatMap (fun q =>
    ws.map (fun w => ⟨w.subject, assignDifficulty w, q, w.resp q⟩))

/-- The individual mild-moderate band table `ind_mild_dict` of `ioi_ha.py`. -/
def ind_mild_dict : Nat → Option (ℚ × ℚ)
  | 1 => some (3, 5)
  | 2 => some (3, 4)
  | 3 => some (3, 4)
  | 4 => some (2, 4)
  | 5 => some (3, 4)
  | 6 => some (3, 5)
  | 7 => some (3, 4)
  | _ => none

/-- The individual mod-severe band table `ind_mod_dict` of `ioi_ha.py`. -/
def ind_mod_dict : Nat → Option (ℚ × ℚ)
  | 1 => some (4.5, 0.96)
  | 2 => some (3.52, 1.08)
  | 3 => some (3.19, 1.05)
  | 4 => some (3.84, 1.17)
  | 5 => some (3.38, 1.11)
  | 6 => some (3.38, 1.1)
  | 7 => some (3.68, 1.02)
  | _ => none

/-- The state of the Python variable `norms` across iterations of the WNL
loop: not yet assigned (a use raises NameError), a band pair, or the string
fallback assigned after a KeyError (a later comparison against it raises
TypeError, caught as NA). -/
inductive NSt where
  | undef : NSt
  | bands : ℚ → ℚ → NSt
  | errS : NSt

/-- One pass of the first `try` block of the WNL loop: the band selection.
The first branch compares the row's difficulty against the literal
`'mild_mod'` exactly as the source does; when no branch fires, `norms`
keeps its previous value. -/
def step (iMild iMod : Nat → Option (ℚ × ℚ)) (st : NSt) (l : LRow) : NSt :=
  if l.difficulty = "mild_mod" then
    match iMild l.question with
    | some (c, w) => NSt.bands c w
    | none => NSt.errS
  else if l.difficulty = "mod-severe" then
    match iMod l.question with
    | some (c, w) => NSt.bands c w
    | none => NSt.errS
  else st

/-- Pandas scalar `<=` with a possibly-NaN left operand: False on NaN. -/
def leNaN (v : Option ℚ) (c : ℚ) : Bool :=
  match v with
  | some x => decide (x ≤ c)
  | none => false

/-- Pandas scalar `>=` with a possibly-NaN left operand: False on NaN. -/
def geNaN (v : Option ℚ) (c : ℚ) : Bool :=
  match v with
  | some x => decide (c ≤ x)
  | none => false

/-- The second `try` block of the WNL loop: tag `'wnl'` when the score lies
within `[norms[0]-norms[1], norms[0]+norms[1]]`, `'outside'` otherwise,
`'NA'` when `norms` is the string fallback (TypeError), and an uncaught
NameError (modelled as `Except.error`) when `norms` was never assigned. -/
def tag (st : NSt) (sc : Option ℚ) : Except Unit String :=
  match st with
  | NSt.undef => Except.error ()
  | NSt.errS => Except.ok "NA"
  | NSt.bands c w =>
      Except.ok (if leNaN sc (c + w) && geNaN sc (c - w) then "wnl" else "outside")

/-- The WNL loop `for row in range(0, len(data_long))`, threading the
`norms` state through the rows and collecting the WNL column. -/
def wnlLoop (iMild iMod : Nat → Option (ℚ × ℚ)) (st : NSt) : List LRow → Except Unit (List String)
  | [] => Except.ok []
  | l :: ls =>
    match tag (step iMild iMod st l) l.score with
    | Except.error _ => Except.error ()
    | Except.ok t => (wnlLoop iMild iMod (step iMild iMod st l) ls).map (fun ts => t :: ts)

/-- The WNL column of `ioi_ha.py` as a function of the individual
mild-moderate band table and the wide input table. -/
def ioiPipeline (iMild : Nat → Option (ℚ × ℚ)) (ws : List WRow) : Except Unit (List String) :=
  wnlLoop iMild ind_mod_dict NSt.undef (melt ws)

/-- The tier of every wide row is one of the two assigned strings. -/
theorem assignDifficulty_cases (w : WRow) :
    assignDifficulty w = "mild-mod" ∨ assignDifficulty w = "mod-severe" := by
  rw [assignDifficulty]
  split
  · exact Or.inl rfl
  · exact Or.inr rfl

/-- The band-selection step never reads the mild table on a row whose
difficulty is not the (unreachable) literal `'mild_mod'`. -/
theorem step_indep (iM1 iM2 iMod : Nat → Option (ℚ × ℚ)) (st : NSt) (l : LRow)
    (h : l.difficulty ≠ "mild_mod") :
    step iM1 iMod st l = step iM2 iMod st l := by
  simp only [step, if_neg h]

/-- The WNL loop is independent of the mild table on rows that never carry
the literal `'mild_mod'`. -/
theorem wnlLoop_indep (iM1 iM2 iMod : Nat → Option (ℚ × ℚ)) :
    ∀ (ls : List LRow) (st : NSt), (∀ l ∈ ls, l.difficulty ≠ "mild_mod") →
      wnlLoop iM1 iMod st ls = wnlLoop iM2 iMod st ls := by
  intro ls
  induction ls with
  | nil => intro st h; rfl
  | cons l ls ih =>
    intro st h
    have hstep := step_indep iM1 iM2 iMod st l (h l (List.mem_cons_self _ _))
    rw [wnlLoop, wnlLoop, ← hstep,
      ih (step iM1 iMod st l) (fun l' hl' => h l' (List.mem_cons_of_mem _ hl'))]

/-- C9: two runs of the normative script on the same input that differ only
in the contents of the individual mild-moderate band table produce the same
WNL column (and hence the same outputs): the band-selection branch compares
the row's difficulty against `'mild_mod'` while tiers are `'mild-mod'` or
`'mod-severe'`, so the mild table is never consulted. -/
theorem C9_ind_mild_never_consulted (iM1 iM2 : Nat → Option (ℚ × ℚ)) (ws : List WRow) :
    ioiPipeline iM1 ws = ioiPipeline iM2 ws := by
  rw [ioiPipeline, ioiPipeline]
  apply wnlLoop_indep
  intro l hl
  rw [melt, List.mem_flatMap] at hl
  obtain ⟨q, -, hl⟩ := hl
  rw [List.mem_map] at hl
  obtain ⟨w, -, rfl⟩ := hl
  show assignDifficulty w ≠ "mild_mod"
  rcases assignDifficulty_cases w with h | h <;> rw [h] <;> decide

/-- C10: a subject whose response to the last question (question 8) is
missing is assigned the `'mod-severe'` tier (the NaN comparison with 2 is
False), not excluded, flagged, or left untiered. -/
theorem C10_missing_difficulty_mod_severe (w : WRow) (h : w.resp 8 = none) :
    assignDifficulty w = "mod-severe" := by
  rw [assignDifficulty, h]
  simp [gtNaN]

/-- Witness for C10 at a concrete wide row with no question-8 response. -/
theorem C10_missing_difficulty_witness :
    assignDifficulty ⟨7, fun _ => none⟩ = "mod-severe" :=
  C10_missing_difficulty_mod_severe ⟨7, fun _ => none⟩ rfl

/-- C7: a subject whose question-8 raw value is present is tiered
`'mild-mod'` exactly when that value exceeds 2 and `'mod-severe'` otherwise;
the tier is computed once per subject on the wide row, every long row of
that subject produced by the melt carries it, and the band-table selection
of the WNL loop depends only on a row's difficulty and question. -/
theorem C7_difficulty_tiering (ws : List WRow) (w : WRow) (hw : w ∈ ws) (v : ℚ)
    (hv : w.resp 8 = some v) :
    (assignDifficulty w = if 2 < v then "mild-mod" else "mod-severe")
    ∧ (∀ q ∈ List.range' 1 8,
        (⟨w.subject, assignDifficulty w, q, w.resp q⟩ : LRow) ∈ melt ws)
    ∧ (∀ (st : NSt) (l l' : LRow), l.difficulty = l'.difficulty →
        l.question = l'.question →
        step ind_mild_dict ind_mod_dict st l = step ind_mild_dict ind_mod_dict st l') := by
  refine ⟨?_, ?_, ?_⟩
  · rw [assignDifficulty, hv]
    simp only [gtNaN, decide_eq_true_eq]
  · intro q hq
    rw [melt, List.mem_flatMap]
    exact ⟨q, hq, List.mem_map_of_mem _ hw⟩
  · intro st l l' hd hq
    rw [step, step, hd, hq]

/-- C2 failing input, first subject: question-8 response 1 (mod-severe
tier), every other response 4. -/
def exW1 : WRow := ⟨1, fun q => if q = 8 then some 1 else some (4 : ℚ)⟩

/-- C2 failing input, second subject: question-8 response 3 (mild-moderate
tier), every other response 0.5. -/
def exW2 : WRow := ⟨2, fun q => if q = 8 then some 3 else some (0.5 : ℚ)⟩

/-- C2, evaluated at the failing input: subject 2 is tiered `'mild-mod'`
and subject 2's question-1 score 0.5 lies within the individual
mild-moderate band for question 1, so the claim tags that row
within-normal-limits; the code instead compares the tier against the
literal `'mild_mod'`, never consults the mild-moderate table, reuses the
mod-severe norms left over from subject 1's row, and tags the row
`'outside'` (the second entry of the WNL column below). -/
theorem C2_code_eval :
    ioiPipeline ind_mild_dict [exW1, exW2]
      = Except.ok ["wnl", "outside", "wnl", "outside", "wnl", "outside", "wnl",
          "outside", "wnl", "outside", "wnl", "outside", "wnl", "outside", "NA", "NA"]
    ∧ assignDifficulty exW2 = "mild-mod"
    ∧ ind_mild_dict 1 = some (3, 5)
    ∧ ((3 : ℚ) - 5 ≤ 0.5 ∧ (0.5 : ℚ) ≤ 3 + 5) := by
  refine ⟨?_, by rw [assignDifficulty]; rfl, rfl, by norm_num⟩
  have hA : ("mild-mod" : String) ≠ "mild_mod" := by decide
  have hC : ("mod-severe" : String) ≠ "mild_mod" := by decide
  have hE : ("mild-mod" : String) ≠ "mod-severe" := by decide
  norm_num [ioiPipeline, melt, List.range', wnlLoop, step, tag, leNaN, geNaN,
    assignDifficulty, gtNaN, ind_mild_dict, ind_mod_dict, exW1, exW2, Except.map,
    hA, hC, hE]

/-- Witness for C7 at a concrete input: one subject whose question-8
response is 3. -/
theorem C7_difficulty_tiering_witness :
    (assignDifficulty ⟨2, fun _ => some 3⟩ = if 2 < (3 : ℚ) then "mild-mod" else "mod-severe")
    ∧ (∀ q ∈ List.range' 1 8,
        (⟨2, assignDifficulty ⟨2, fun _ => some 3⟩, q, some 3⟩ : LRow)
          ∈ melt [⟨2, fun _ => some 3⟩])
    ∧ (∀ (st : NSt) (l l' : LRow), l.difficulty = l'.difficulty →
        l.question = l'.question →
        step ind_mild_dict ind_mod_dict st l = step ind_mild_dict ind_mod_dict st l') :=
  C7_difficulty_tiering [⟨2, fun _ => some 3⟩] ⟨2, fun _ => some 3⟩
    (List.mem_cons_self _ _) 3 rfl

end IoiHa
